import Mathlib

/-!
# Verification of the ws-heartbeat-manager `HeartbeatManager`

Shallow embedding of `src/heartbeatManager.ts`.

Modelling choices:

* JavaScript `number` values reaching the constructor are modelled by
  `JSNum`: a finite value (a rational) or `NaN` / `Infinity` / `-Infinity`.
  Finite arithmetic is exact rational arithmetic (float rounding and
  overflow of finite intermediate results are not modelled).
* `performance.now()` timestamps and millisecond quantities are rationals.
* Websocket connections are identified by natural numbers (`Conn`).  The
  transport-owned parts of a connection (its ready-state and whether a
  `ping()` call raises) are an environment `Env` passed to the sweep;
  invocations of the external capabilities `terminate()` and `ping()` are
  recorded as effect lists in the order the code performs them.  The
  `try { ... } catch { }` wrappers around `terminate()` and `ping()` mean a
  raising call has no effect on control flow beyond what the code does in
  the catch branch, so a raising terminate is simply a recorded invocation.
* `Map` is an insertion-ordered association list with unique keys
  (`mapGet` / `mapSet` / `mapDelete`), `Set` an insertion-ordered
  duplicate-free list (`setAdd` / `setDel`), matching JS iteration order.
* The `for (const ws of bucket)` loop in `tick` iterates the live set while
  deleting at most the currently visited element from that set (branch one
  deletes `ws` from the current bucket; `removeClient ws` deletes `ws` from
  the bucket recorded in its state).  No other member of the current bucket
  is ever inserted or deleted mid-loop, so folding over the member list
  taken at loop entry is an exact model of the live iteration.
* Node timers are modelled by two booleans (`delayTimer`, `tickTimer`):
  whether the corresponding handle is set.  The firing of the start-delay
  timer is the operation `onDelayFire`; one firing of the interval timer is
  `tick`.  `unref()` has no observable effect inside the model.
* The three listener closures (`onPong`, `onClose`, `onError`) are modelled
  by registration multisets (`pongListeners`, …) plus the operations
  `firePong` / `fireClose` / `fireError`, which run the closure body exactly
  when a registration is present.  `once` semantics of the close and error
  subscriptions are modelled by erasing the registration before running the
  closure body.
* The `throw` inside `bucketAt` fires exactly when the bucket array is
  empty; `getBucket` / `setBucket` model the non-throwing behaviour
  (fallback to index 0 on out-of-range access) and the unreachability of
  the throw is what claim C10 establishes (`bucketCount ≥ 1`).
-/

namespace WsHeartbeat

/-- A JavaScript `number` as the constructor's validation observes it:
a finite value (exact rational) or one of `NaN`, `Infinity`, `-Infinity`. -/
inductive JSNum where
  | num (q : ℚ)
  | nan
  | inf
  | negInf
deriving DecidableEq

namespace JSNum

/-- `Number.isFinite`. -/
def isFinite : JSNum → Bool
  | num _ => true
  | nan => false
  | inf => false
  | negInf => false

/-- The finite value, when there is one (`some q` iff `Number.isFinite`). -/
def toQ? : JSNum → Option ℚ
  | num q => some q
  | nan => none
  | inf => none
  | negInf => none

/-- `x * 2`, used for the default `timeoutMs = intervalMs * 2`. -/
def double : JSNum → JSNum
  | num q => num (2 * q)
  | nan => nan
  | inf => inf
  | negInf => negInf

/-- `Math.min(k, x)` for a finite constant `k`, used for the default
`tickMs = Math.min(1000, intervalMs)`. -/
def jsMinK (x : JSNum) (k : ℚ) : JSNum :=
  match x with
  | num q => num (min k q)
  | nan => nan
  | inf => num k
  | negInf => negInf

/-- `Number.isInteger` together with extraction of the integer value. -/
def asInt? : JSNum → Option ℤ
  | num q => if q.den = 1 then some q.num else none
  | nan => none
  | inf => none
  | negInf => none

/-- JavaScript `<` on numbers: false whenever an operand is `NaN`. -/
def jsLt : JSNum → JSNum → Bool
  | num a, num b => decide (a < b)
  | nan, _ => false
  | _, nan => false
  | negInf, negInf => false
  | negInf, _ => true
  | _, negInf => false
  | inf, _ => false
  | num _, inf => true

end JSNum

/-- `Math.round` on a finite value: round half toward positive infinity. -/
def jsRound (q : ℚ) : ℤ := ⌊q + 1 / 2⌋

/-- The `HeartbeatManagerOptions` object: each field either absent
(`undefined`, so the `??` default applies) or some JS number. -/
structure Options where
  intervalMs : Option JSNum := none
  timeoutMs : Option JSNum := none
  tickMs : Option JSNum := none
  startJitterMs : Option JSNum := none
  maxBuckets : Option JSNum := none
deriving DecidableEq

/-- Which `RangeError` the constructor threw (identified by the option the
failing check guards). -/
inductive ConfigError where
  | intervalMs
  | timeoutMs
  | tickMs
  | maxBuckets
  | startJitterMs
deriving DecidableEq

/-- The immutable configuration a successfully constructed
`HeartbeatManager` carries: the validated fields plus the derived
`bucketCount` and effective `tickMs`. -/
structure Manager where
  intervalMs : ℚ
  timeoutMs : ℚ
  startJitterMs : ℚ
  bucketCount : ℕ
  tickMs : ℚ
deriving DecidableEq

/-- The constructor (`constructor(opts)`), lines 72–106: apply `??`
defaults, run the five validation checks in source order (throw modelled as
`Except.error`; the constructor has no other effect before a throw), then
derive `bucketCount` and the effective `tickMs`.  The defaults for
`tickMs`, `maxBuckets` and `startJitterMs` are hoisted above the first two
checks; computing a default is effect-free, so this preserves behaviour. -/
def mkManager (opts : Options) : Except ConfigError Manager :=
  let intervalN := opts.intervalMs.getD (.num 30000)
  let timeoutN := opts.timeoutMs.getD intervalN.double
  let desiredTickN := opts.tickMs.getD (intervalN.jsMinK 1000)
  let maxBucketsN := opts.maxBuckets.getD (.num 60)
  let startJitterN := opts.startJitterMs.getD intervalN
  match intervalN.toQ? with
  | none => .error .intervalMs
  | some interval =>
    if interval ≤ 0 then .error .intervalMs else
    match timeoutN.toQ? with
    | none => .error .timeoutMs
    | some timeout =>
      if timeout < interval then .error .timeoutMs else
      match desiredTickN.toQ? with
      | none => .error .tickMs
      | some desiredTick =>
        if desiredTick ≤ 0 then .error .tickMs else
        match maxBucketsN.asInt? with
        | none => .error .maxBuckets
        | some maxB =>
          if maxB < 1 then .error .maxBuckets else
          match startJitterN.toQ? with
          | none => .error .startJitterMs
          | some startJitter =>
            if startJitter < 0 then .error .startJitterMs else
            let bucketCount : ℤ :=
              min maxB (max 1 (jsRound (interval / max 50 desiredTick)))
            .ok { intervalMs := interval
                  timeoutMs := timeout
                  startJitterMs := startJitter
                  bucketCount := bucketCount.toNat
                  tickMs := max 10 ((jsRound (interval / (bucketCount : ℚ)) : ℚ)) }

/-- A websocket connection, identified by a natural number. -/
abbrev Conn := ℕ

/-- The observable data of `ClientState` (lines 41–47): the closures
`onPong` / `onClose` / `onError` are modelled by the fire operations and
the listener registration lists in `MState`. -/
structure ClientState where
  lastPongAt : ℚ
  bucket : ℕ
deriving DecidableEq

/-- The mutable state of one `HeartbeatManager` instance. -/
structure MState where
  clients : List (Conn × ClientState)
  buckets : List (List Conn)
  bucketIndex : ℕ
  delayTimer : Bool
  tickTimer : Bool
  pongListeners : List Conn
  closeListeners : List Conn
  errorListeners : List Conn
deriving DecidableEq

/-- `Map.prototype.get`. -/
def mapGet (m : List (Conn × ClientState)) (k : Conn) : Option ClientState :=
  (m.find? (fun p => p.1 == k)).map Prod.snd

/-- `Map.prototype.set`: replace in place if the key exists, else append. -/
def mapSet (m : List (Conn × ClientState)) (k : Conn) (v : ClientState) :
    List (Conn × ClientState) :=
  if (m.find? (fun p => p.1 == k)).isSome then
    m.map (fun p => if p.1 == k then (k, v) else p)
  else
    m ++ [(k, v)]

/-- `Map.prototype.delete` (keys are unique, so filtering is deletion). -/
def mapDelete (m : List (Conn × ClientState)) (k : Conn) :
    List (Conn × ClientState) :=
  m.filter (fun p => p.1 != k)

/-- `Set.prototype.add`. -/
def setAdd (b : List Conn) (ws : Conn) : List Conn :=
  if ws ∈ b then b else b ++ [ws]

/-- `Set.prototype.delete` (members are unique, so filtering is deletion). -/
def setDel (b : List Conn) (ws : Conn) : List Conn :=
  b.filter (fun w => w != ws)

/-- The index `bucketAt` actually reads or writes: `buckets[index] ?? first`
falls back to index 0 when `index` is out of range (lines 179–184). -/
def resolveIdx (bs : List (List Conn)) (i : ℕ) : ℕ :=
  if i < bs.length then i else 0

/-- `bucketAt(index)` as a reader.  The `throw` branch of `bucketAt` fires
exactly when `bs = []`; on that state this reader returns `[]`. -/
def getBucket (bs : List (List Conn)) (i : ℕ) : List Conn :=
  bs.getD (resolveIdx bs i) []

/-- Writing back through the set object `bucketAt(index)` returned. -/
def setBucket (bs : List (List Conn)) (i : ℕ) (b : List Conn) :
    List (List Conn) :=
  bs.set (resolveIdx bs i) b

/-- The state immediately after the constructor body: line 105 allocates
`bucketCount` empty buckets; `bucketIndex` starts at 0; no timers, no
clients, no listeners. -/
def initState (M : Manager) : MState :=
  { clients := []
    buckets := List.replicate M.bucketCount []
    bucketIndex := 0
    delayTimer := false
    tickTimer := false
    pongListeners := []
    closeListeners := []
    errorListeners := [] }

/-- `stopTimers()`, lines 210–219: clear whichever handles are set. -/
def stopTimers (s : MState) : MState :=
  { s with delayTimer := false, tickTimer := false }

/-- `startTickTimer()`, lines 204–208. -/
def startTickTimer (s : MState) : MState :=
  if s.tickTimer then s else { s with tickTimer := true }

/-- `startTimersIfNeeded()`, lines 186–202.  `jr` is the `Math.random()`
draw used for the jitter delay (a real run has `0 ≤ jr < 1`). -/
def startTimersIfNeeded (M : Manager) (jr : ℚ) (s : MState) : MState :=
  if s.tickTimer || s.delayTimer then s
  else
    let delay : ℤ := if M.startJitterMs > 0 then ⌊jr * M.startJitterMs⌋ else 0
    if delay = 0 then startTickTimer s
    else { s with delayTimer := true }

/-- The start-delay timer callback (lines 196–199): clear the handle, then
start the tick timer only if clients remain. -/
def onDelayFire (s : MState) : MState :=
  let s1 := { s with delayTimer := false }
  if s1.clients.length > 0 then startTickTimer s1 else s1

/-- `removeClient(ws, terminate)`, lines 153–167.  Returns the new state
and the list of `terminate()` invocations performed (the `try`/`catch`
swallows a raising terminate, so the invocation happens and control flow
continues identically whether it raises or not). -/
def removeClient (s : MState) (ws : Conn) (terminate : Bool) :
    MState × List Conn :=
  let term := if terminate then [ws] else []
  match mapGet s.clients ws with
  | none => (s, term)
  | some st =>
    let s1 := { s with
      pongListeners := s.pongListeners.erase ws
      closeListeners := s.closeListeners.erase ws
      errorListeners := s.errorListeners.erase ws }
    let s2 := { s1 with
      buckets := (setBucket s1.buckets st.bucket
        (setDel (getBucket s1.buckets st.bucket) ws))
      clients := mapDelete s1.clients ws }
    let s3 := if s2.clients.length = 0 then stopTimers s2 else s2
    (s3, term)

/-- `Math.floor(Math.random() * this.buckets.length)` (line 121): the
bucket index chosen at enrollment, for random draw `r`. -/
def randomBucket (len : ℕ) (r : ℚ) : ℕ := (⌊r * (len : ℚ)⌋).toNat

/-- `addClient(ws)`, lines 118–145.  `now` is `performance.now()` at entry,
`r` the `Math.random()` draw for the bucket choice (a real run has
`0 ≤ r < 1`), `jr` the draw `startTimersIfNeeded` may consume. -/
def addClient (M : Manager) (s : MState) (ws : Conn) (now r jr : ℚ) : MState :=
  if (mapGet s.clients ws).isSome then s
  else
    let bucket : ℕ := randomBucket s.buckets.length r
    let st : ClientState := { lastPongAt := now, bucket := bucket }
    let s1 := { s with
      clients := mapSet s.clients ws st
      buckets := (setBucket s.buckets bucket
        (setAdd (getBucket s.buckets bucket) ws))
      pongListeners := s.pongListeners ++ [ws]
      closeListeners := s.closeListeners ++ [ws]
      errorListeners := s.errorListeners ++ [ws] }
    startTimersIfNeeded M jr s1

/-- `shutdown()`, lines 172–177: stop timers, then force-terminate and
remove every tracked client, iterating over a snapshot of the key set.
Returns the new state and the `terminate()` invocations in order. -/
def shutdown (s : MState) : MState × List Conn :=
  let s0 := stopTimers s
  (s0.clients.map Prod.fst).foldl
    (fun acc ws =>
      let r := removeClient acc.1 ws true
      (r.1, acc.2 ++ r.2))
    (s0, [])

/-- The mutation `state.lastPongAt = performance.now()` performed by the
`onPong` closure, seen through the registry. -/
def pongUpdate (m : List (Conn × ClientState)) (ws : Conn) (now : ℚ) :
    List (Conn × ClientState) :=
  m.map (fun p => if p.1 == ws then (p.1, { p.2 with lastPongAt := now }) else p)

/-- The `pong` listener body (`state.lastPongAt = performance.now()`),
run only while the registration made for `ws` is present. -/
def firePong (s : MState) (ws : Conn) (now : ℚ) : MState :=
  if ws ∈ s.pongListeners then
    { s with clients := pongUpdate s.clients ws now }
  else s

/-- The `close` listener body (`removeClient(ws)`), registered with `once`:
the registration is consumed before the body runs. -/
def fireClose (s : MState) (ws : Conn) : MState × List Conn :=
  if ws ∈ s.closeListeners then
    removeClient { s with closeListeners := s.closeListeners.erase ws } ws false
  else (s, [])

/-- The `error` listener body (`removeClient(ws, true)`), registered with
`once`: the registration is consumed before the body runs. -/
def fireError (s : MState) (ws : Conn) : MState × List Conn :=
  if ws ∈ s.errorListeners then
    removeClient { s with errorListeners := s.errorListeners.erase ws } ws true
  else (s, [])

/-- The transport-owned observations the sweep makes of a connection:
whether `ws.readyState === WS_OPEN`, and whether `ws.ping()` raises. -/
structure Env where
  isOpen : Conn → Bool
  pingFails : Conn → Bool

/-- External capability invocations performed by one tick, in order. -/
structure TickEffects where
  terminated : List Conn
  pinged : List Conn
deriving DecidableEq

/-- The loop body of `tick` (lines 225–247) for one member `ws` of the
bucket fetched at loop entry (`bucketAt(bucketIndex)`; `s.bucketIndex` is
unchanged throughout the loop, so it names that same bucket). -/
def tickStep (M : Manager) (env : Env) (now : ℚ)
    (sa : MState × TickEffects) (ws : Conn) : MState × TickEffects :=
  let s := sa.1
  let eff := sa.2
  match mapGet s.clients ws with
  | none =>
    ({ s with buckets := (setBucket s.buckets s.bucketIndex
        (setDel (getBucket s.buckets s.bucketIndex) ws)) }, eff)
  | some st =>
    if env.isOpen ws = false then
      let r := removeClient s ws false
      (r.1, { eff with terminated := eff.terminated ++ r.2 })
    else if now - st.lastPongAt > M.timeoutMs then
      let r := removeClient s ws true
      (r.1, { eff with terminated := eff.terminated ++ r.2 })
    else
      let eff1 := { eff with pinged := eff.pinged ++ [ws] }
      if env.pingFails ws then
        let r := removeClient s ws true
        (r.1, { eff1 with terminated := eff1.terminated ++ r.2 })
      else (s, eff1)

/-- One firing of the interval timer: `tick()`, lines 221–251.  Sweeps the
bucket at the current cursor, then advances the cursor with wraparound. -/
def tick (M : Manager) (env : Env) (now : ℚ) (s : MState) :
    MState × TickEffects :=
  let members := getBucket s.buckets s.bucketIndex
  let r := members.foldl (tickStep M env now) (s, { terminated := [], pinged := [] })
  let i := r.1.bucketIndex + 1
  ({ r.1 with bucketIndex := if r.1.buckets.length ≤ i then 0 else i }, r.2)

/-! ## Concrete example run (used to witness the theorems on real inputs)

A manager built from `intervalMs = 100`, `timeoutMs = 100`, `tickMs = 50`
(so `bucketCount = 2`, effective `tickMs = 50`), with one connection
enrolled at `t = 0` under random draws `r = 3/4` (bucket 1) and jitter
draw `0` (zero delay, tick timer starts immediately). -/

def exOptions : Options :=
  { intervalMs := some (.num 100)
    timeoutMs := some (.num 100)
    tickMs := some (.num 50) }

def exManager : Manager :=
  { intervalMs := 100
    timeoutMs := 100
    startJitterMs := 100
    bucketCount := 2
    tickMs := 50 }

def exEnv : Env :=
  { isOpen := fun _ => true
    pingFails := fun _ => false }

def exState : MState := addClient exManager (initState exManager) 7 0 (3 / 4) 0

/-! ## The bucket-registry invariant (claims C5, C9, C10)

`Inv s` is the data-structure invariant of the manager:
* the `Map` has unique keys,
* every member of every bucket is a tracked connection whose stored
  `state.bucket` names exactly that bucket (so a connection is in no bucket
  other than its own),
* every tracked connection's stored bucket index is in range and the
  connection is a member of that bucket,
* every bucket, being a `Set`, has no duplicate members. -/
def Inv (s : MState) : Prop :=
  (s.clients.map Prod.fst).Nodup
  ∧ (∀ i, i < s.buckets.length → ∀ ws ∈ s.buckets.getD i [],
      (mapGet s.clients ws).map ClientState.bucket = some i)
  ∧ (∀ p ∈ s.clients,
      p.2.bucket < s.buckets.length ∧ p.1 ∈ s.buckets.getD p.2.bucket [])
  ∧ (∀ b ∈ s.buckets, b.Nodup)

instance (s : MState) : Decidable (Inv s) := by
  unfold Inv
  infer_instance

/-! ## Timer lemmas (claim C6)

`TimerInv`: whenever the registry is empty, neither timer handle is set. -/

def TimerInv (s : MState) : Prop :=
  s.clients = [] → s.delayTimer = false ∧ s.tickTimer = false

instance (s : MState) : Decidable (TimerInv s) := by
  unfold TimerInv
  infer_instance

/-! ## Listener bookkeeping (claim C9)

In the code each tracked connection owns exactly one registration per event
(`on('pong')`, `once('close')`, `once('error')`), installed at enrollment
and revoked at removal.  `ListenerInv` states that each registration list
is exactly the key list of the registry. -/

def ListenerInv (s : MState) : Prop :=
  s.pongListeners = s.clients.map Prod.fst
  ∧ s.closeListeners = s.clients.map Prod.fst
  ∧ s.errorListeners = s.clients.map Prod.fst

instance (s : MState) : Decidable (ListenerInv s) := by
  unfold ListenerInv
  infer_instance

/-! ## Index-range invariant (claim C10)

Every bucket index the code ever hands to `bucketAt` — the index stored at
enrollment, the stored index read back at removal, and the rotating
cursor — stays inside `[0, buckets.length)`, and the bucket array is
non-empty. -/

def IdxInv (s : MState) : Prop :=
  0 < s.buckets.length
  ∧ s.bucketIndex < s.buckets.length
  ∧ ∀ p ∈ s.clients, p.2.bucket < s.buckets.length

instance (s : MState) : Decidable (IdxInv s) := by
  unfold IdxInv
  infer_instance

/-- Modelled from the spec wording of claim C3 (spec §6): after applying
the documented defaults, the configuration is valid iff `intervalMs` is
finite and `> 0`, `timeoutMs` is finite and not `< intervalMs`, `tickMs`
is finite and `> 0`, `maxBuckets` is an integer `≥ 1`, and `startJitterMs`
is finite and not `< 0`.  Comparisons are JavaScript comparisons (false
when an operand is NaN). -/
def specValid (opts : Options) : Bool :=
  let intervalN := opts.intervalMs.getD (.num 30000)
  let timeoutN := opts.timeoutMs.getD intervalN.double
  let tickN := opts.tickMs.getD (intervalN.jsMinK 1000)
  let jitterN := opts.startJitterMs.getD intervalN
  let maxBN := opts.maxBuckets.getD (.num 60)
  (intervalN.isFinite && JSNum.jsLt (.num 0) intervalN)
  && (timeoutN.isFinite && !(JSNum.jsLt timeoutN intervalN))
  && (tickN.isFinite && JSNum.jsLt (.num 0) tickN)
  && (match maxBN.asInt? with
      | some m => decide (1 ≤ m)
      | none => false)
  && (jitterN.isFinite && !(JSNum.jsLt jitterN (.num 0)))

/-! ## Helper lemmas about the map and set models -/

theorem mapGet_nil {k : Conn} : mapGet [] k = none := rfl

theorem mapGet_cons {q : Conn × ClientState} {m : List (Conn × ClientState)}
    {k : Conn} :
    mapGet (q :: m) k = if q.1 = k then some q.2 else mapGet m k := by
  by_cases h : q.1 = k
  · simp [mapGet, List.find?, h]
  · have hb : (q.1 == k) = false := by simpa using h
    simp [mapGet, List.find?, hb, h]

theorem mapDelete_nil {k : Conn} : mapDelete [] k = [] := rfl

theorem mapDelete_cons {q : Conn × ClientState} {m : List (Conn × ClientState)}
    {k : Conn} :
    mapDelete (q :: m) k = if q.1 = k then mapDelete m k else q :: mapDelete m k := by
  by_cases h : q.1 = k
  · have hb : (q.1 != k) = false := by simpa using h
    simp [mapDelete, List.filter, hb, h]
  · have hb : (q.1 != k) = true := by simpa using h
    simp [mapDelete, List.filter, hb, h]

theorem mapGet_eq_none_iff {m : List (Conn × ClientState)} {k : Conn} :
    mapGet m k = none ↔ ∀ p ∈ m, p.1 ≠ k := by
  simp [mapGet, List.find?_eq_none]

theorem mapGet_mem {m : List (Conn × ClientState)} {k : Conn} {v : ClientState}
    (h : mapGet m k = some v) : (k, v) ∈ m := by
  induction m with
  | nil => simp [mapGet_nil] at h
  | cons q m ih =>
    rw [mapGet_cons] at h
    split at h
    · next he =>
      cases q
      cases h
      simp_all
    · exact List.mem_cons_of_mem q (ih h)

theorem mapGet_of_mem {m : List (Conn × ClientState)} {p : Conn × ClientState}
    (hnd : (m.map Prod.fst).Nodup) (hp : p ∈ m) : mapGet m p.1 = some p.2 := by
  induction m with
  | nil => cases hp
  | cons q m ih =>
    simp only [List.map_cons, List.nodup_cons] at hnd
    rw [mapGet_cons]
    rcases List.mem_cons.mp hp with rfl | hp2
    · simp
    · have hne : ¬ q.1 = p.1 := by
        intro he
        exact hnd.1 (he ▸ List.mem_map_of_mem Prod.fst hp2)
      rw [if_neg hne]
      exact ih hnd.2 hp2

theorem mapGet_delete {m : List (Conn × ClientState)} {k k' : Conn} :
    mapGet (mapDelete m k) k' = if k' = k then none else mapGet m k' := by
  induction m with
  | nil => simp [mapGet_nil, mapDelete_nil]
  | cons q m ih =>
    rw [mapDelete_cons]
    by_cases hq : q.1 = k
    · rw [if_pos hq, ih, mapGet_cons]
      by_cases hk : k' = k
      · simp [hk]
      · have : ¬ q.1 = k' := fun he => hk (by rw [← he, hq])
        simp [hk, this]
    · rw [if_neg hq, mapGet_cons, mapGet_cons, ih]
      by_cases hq' : q.1 = k'
      · have : ¬ k' = k := fun he => hq (by rw [hq', he])
        simp [hq', this]
      · simp [hq']

theorem mapDelete_of_get_none {m : List (Conn × ClientState)} {k : Conn}
    (h : mapGet m k = none) : mapDelete m k = m := by
  rw [mapGet_eq_none_iff] at h
  unfold mapDelete
  refine List.filter_eq_self.mpr (fun p hp => ?_)
  simpa using h p hp

theorem mapSet_of_get_none {m : List (Conn × ClientState)} {k : Conn}
    {v : ClientState} (h : mapGet m k = none) : mapSet m k v = m ++ [(k, v)] := by
  unfold mapGet at h
  unfold mapSet
  rw [Option.map_eq_none'] at h
  simp [h]

theorem mapGet_append_single {m : List (Conn × ClientState)} {k k' : Conn}
    {v : ClientState} :
    mapGet (m ++ [(k, v)]) k' =
      match mapGet m k' with
      | some v' => some v'
      | none => if k = k' then some v else none := by
  induction m with
  | nil => by_cases hk : k = k' <;> simp [mapGet_nil, mapGet_cons, hk]
  | cons q m ih =>
    rw [List.cons_append, mapGet_cons, mapGet_cons]
    by_cases hq : q.1 = k'
    · simp [hq]
    · simp only [if_neg hq]
      exact ih

theorem keys_delete_sublist (m : List (Conn × ClientState)) (k : Conn) :
    ((mapDelete m k).map Prod.fst).Sublist (m.map Prod.fst) :=
  List.Sublist.map Prod.fst (List.filter_sublist m)

theorem mem_setAdd {b : List Conn} {ws w : Conn} :
    w ∈ setAdd b ws ↔ w ∈ b ∨ w = ws := by
  unfold setAdd
  by_cases h : ws ∈ b
  · simp only [if_pos h]
    constructor
    · exact Or.inl
    · rintro (hw | rfl) <;> [exact hw; exact h]
  · simp [if_neg h]

theorem mem_setDel {b : List Conn} {ws w : Conn} :
    w ∈ setDel b ws ↔ w ∈ b ∧ w ≠ ws := by
  simp [setDel]

theorem nodup_setAdd {b : List Conn} {ws : Conn} (h : b.Nodup) :
    (setAdd b ws).Nodup := by
  unfold setAdd
  split
  · exact h
  · next hn => simpa [List.nodup_append, hn] using h

theorem nodup_setDel {b : List Conn} {ws : Conn} (h : b.Nodup) :
    (setDel b ws).Nodup := h.filter _

theorem length_setBucket (bs : List (List Conn)) (i : ℕ) (b : List Conn) :
    (setBucket bs i b).length = bs.length := by
  simp [setBucket]

theorem getD_setBucket (bs : List (List Conn)) (i : ℕ) (b : List Conn)
    (j : ℕ) (hj : j < bs.length) :
    (setBucket bs i b).getD j [] = if resolveIdx bs i = j then b else bs.getD j [] := by
  unfold setBucket
  by_cases h : resolveIdx bs i = j
  · subst h
    have hr : resolveIdx bs i < bs.length := hj
    simp [List.getD_eq_getElem?_getD, List.getElem?_set_self, hr]
  · simp [List.getD_eq_getElem?_getD, List.getElem?_set_ne, h]

theorem mem_of_mem_setBucket {bs : List (List Conn)} {i : ℕ} {b b' : List Conn}
    (h : b' ∈ setBucket bs i b) : b' = b ∨ b' ∈ bs := by
  rcases List.mem_or_eq_of_mem_set h with h1 | h1
  · exact Or.inr h1
  · exact Or.inl h1

theorem resolveIdx_lt {bs : List (List Conn)} {i : ℕ} (h : i < bs.length) :
    resolveIdx bs i = i := if_pos h

theorem getBucket_eq {bs : List (List Conn)} {i : ℕ} (h : i < bs.length) :
    getBucket bs i = bs.getD i [] := by
  rw [getBucket, resolveIdx_lt h]

theorem getD_mem {bs : List (List Conn)} {i : ℕ} (h : i < bs.length) :
    bs.getD i [] ∈ bs := by
  rw [List.getD_eq_getElem _ _ h]
  exact List.getElem_mem h

/-- Two states with the same registry and buckets satisfy `Inv` together. -/
theorem inv_congr {s s' : MState} (hc : s'.clients = s.clients)
    (hb : s'.buckets = s.buckets) (h : Inv s) : Inv s' := by
  unfold Inv at h ⊢
  rw [hc, hb]
  exact h

/-- Under `Inv`, an untracked connection is a member of no bucket. -/
theorem not_mem_bucket_of_untracked {s : MState} (h : Inv s) {ws : Conn}
    (hget : mapGet s.clients ws = none) {i : ℕ} (hi : i < s.buckets.length) :
    ws ∉ s.buckets.getD i [] := by
  intro hmem
  have := h.2.1 i hi ws hmem
  rw [hget] at this
  cases this

/-- The initial state satisfies the invariant. -/
theorem initState_inv (M : Manager) : Inv (initState M) := by
  refine ⟨List.nodup_nil, ?_, ?_, ?_⟩
  · intro i hi ws hws
    simp only [initState, List.length_replicate] at hi
    rw [initState] at hws
    simp only at hws
    rw [List.getD_eq_getElem _ _ (by simpa [initState] using hi),
      List.getElem_replicate] at hws
    cases hws
  · intro p hp
    cases hp
  · intro b hb
    rcases List.eq_of_mem_replicate hb with rfl
    exact List.nodup_nil

/-! ## removeClient lemmas -/

theorem removeClient_untracked {s : MState} {ws : Conn} {t : Bool}
    (h : mapGet s.clients ws = none) :
    removeClient s ws t = (s, if t then [ws] else []) := by
  simp [removeClient, h]

theorem removeClient_term (s : MState) (ws : Conn) (t : Bool) :
    (removeClient s ws t).2 = if t then [ws] else [] := by
  unfold removeClient
  rcases mapGet s.clients ws <;> rfl

theorem removeClient_tracked_fields {s : MState} {ws : Conn} {t : Bool}
    {st : ClientState} (h : mapGet s.clients ws = some st) :
    (removeClient s ws t).1.clients = mapDelete s.clients ws
    ∧ (removeClient s ws t).1.buckets =
        setBucket s.buckets st.bucket (setDel (getBucket s.buckets st.bucket) ws)
    ∧ (removeClient s ws t).1.pongListeners = s.pongListeners.erase ws
    ∧ (removeClient s ws t).1.closeListeners = s.closeListeners.erase ws
    ∧ (removeClient s ws t).1.errorListeners = s.errorListeners.erase ws := by
  unfold removeClient
  rw [h]
  dsimp only
  split <;> simp [stopTimers]

theorem removeClient_clients (s : MState) (ws : Conn) (t : Bool) :
    (removeClient s ws t).1.clients = mapDelete s.clients ws := by
  rcases hget : mapGet s.clients ws with _ | st
  · rw [removeClient_untracked hget, mapDelete_of_get_none hget]
  · exact (removeClient_tracked_fields hget).1

/-- `removeClient` preserves the bucket-registry invariant. -/
theorem removeClient_inv {s : MState} {ws : Conn} {t : Bool} (h : Inv s) :
    Inv (removeClient s ws t).1 := by
  rcases hget : mapGet s.clients ws with _ | st
  · rw [removeClient_untracked hget]
    exact h
  · obtain ⟨hc, hb, _⟩ := @removeClient_tracked_fields s ws t st hget
    obtain ⟨hnd, hfwd, hbwd, hbnd⟩ := h
    have hmem : (ws, st) ∈ s.clients := mapGet_mem hget
    have hlt : st.bucket < s.buckets.length := (hbwd _ hmem).1
    have hres : resolveIdx s.buckets st.bucket = st.bucket := resolveIdx_lt hlt
    refine ⟨?_, ?_, ?_, ?_⟩
    · rw [hc]
      exact List.Nodup.sublist (keys_delete_sublist _ _) hnd
    · intro i hi w hw
      rw [hb, length_setBucket] at hi
      rw [hb, getD_setBucket _ _ _ _ hi, hres] at hw
      rw [hc, mapGet_delete]
      by_cases hwws : w = ws
      · subst hwws
        exfalso
        split at hw
        · exact ((mem_setDel.mp hw).2 rfl)
        · next hne =>
          have := hfwd i hi w hw
          rw [hget] at this
          exact hne (Option.some_injective _ this)
      · rw [if_neg hwws]
        split at hw
        · next he =>
          subst he
          rw [getBucket_eq hlt] at hw
          exact hfwd st.bucket hlt w (mem_setDel.mp hw).1
        · exact hfwd i hi w hw
    · intro p hp
      rw [hc] at hp
      have hp' : p ∈ s.clients ∧ ¬ p.1 = ws := by
        unfold mapDelete at hp
        have := List.mem_filter.mp hp
        simpa using this
      obtain ⟨hold, hlt2⟩ := And.intro (hbwd p hp'.1) hp'.2
      rw [hb, length_setBucket, getD_setBucket _ _ _ _ hold.1, hres]
      refine ⟨hold.1, ?_⟩
      split
      · next he =>
        rw [getBucket_eq hlt, he]
        exact mem_setDel.mpr ⟨he ▸ hold.2, hlt2⟩
      · exact hold.2
    · intro b hbmem
      rw [hb] at hbmem
      rcases mem_of_mem_setBucket hbmem with rfl | hbm
      · rw [getBucket_eq hlt]
        exact nodup_setDel (hbnd _ (getD_mem hlt))
      · exact hbnd _ hbm

/-! ## addClient lemmas -/

theorem addClient_of_tracked {M : Manager} {s : MState} {ws : Conn}
    {now r jr : ℚ} (h : (mapGet s.clients ws).isSome = true) :
    addClient M s ws now r jr = s := by
  simp [addClient, h]

theorem startTimersIfNeeded_fields (M : Manager) (jr : ℚ) (s : MState) :
    (startTimersIfNeeded M jr s).clients = s.clients
    ∧ (startTimersIfNeeded M jr s).buckets = s.buckets
    ∧ (startTimersIfNeeded M jr s).bucketIndex = s.bucketIndex
    ∧ (startTimersIfNeeded M jr s).pongListeners = s.pongListeners
    ∧ (startTimersIfNeeded M jr s).closeListeners = s.closeListeners
    ∧ (startTimersIfNeeded M jr s).errorListeners = s.errorListeners := by
  unfold startTimersIfNeeded startTickTimer
  dsimp only
  repeat' split
  all_goals exact ⟨rfl, rfl, rfl, rfl, rfl, rfl⟩

theorem randomBucket_lt {len : ℕ} {r : ℚ} (_h0 : 0 ≤ r) (h1 : r < 1)
    (hlen : 0 < len) : randomBucket len r < len := by
  unfold randomBucket
  rw [Int.toNat_lt' (Nat.pos_iff_ne_zero.mp hlen)]
  rw [Int.floor_lt]
  push_cast
  calc r * (len : ℚ) < 1 * (len : ℚ) := by
        exact mul_lt_mul_of_pos_right h1 (by exact_mod_cast hlen)
    _ = (len : ℚ) := one_mul _

theorem addClient_untracked_fields {M : Manager} {s : MState} {ws : Conn}
    {now r jr : ℚ} (h : mapGet s.clients ws = none) :
    (addClient M s ws now r jr).clients =
      s.clients ++ [(ws, { lastPongAt := now, bucket := randomBucket s.buckets.length r })]
    ∧ (addClient M s ws now r jr).buckets =
      setBucket s.buckets (randomBucket s.buckets.length r)
        (setAdd (getBucket s.buckets (randomBucket s.buckets.length r)) ws)
    ∧ (addClient M s ws now r jr).pongListeners = s.pongListeners ++ [ws]
    ∧ (addClient M s ws now r jr).closeListeners = s.closeListeners ++ [ws]
    ∧ (addClient M s ws now r jr).errorListeners = s.errorListeners ++ [ws] := by
  have hns : ¬ (mapGet s.clients ws).isSome = true := by simp [h]
  obtain ⟨h1, h2, _, h4, h5, h6⟩ := startTimersIfNeeded_fields M jr
    { s with
      clients := mapSet s.clients ws
        { lastPongAt := now, bucket := randomBucket s.buckets.length r }
      buckets := (setBucket s.buckets (randomBucket s.buckets.length r)
        (setAdd (getBucket s.buckets (randomBucket s.buckets.length r)) ws))
      pongListeners := s.pongListeners ++ [ws]
      closeListeners := s.closeListeners ++ [ws]
      errorListeners := s.errorListeners ++ [ws] }
  unfold addClient
  rw [if_neg hns]
  exact ⟨by rw [h1]; exact mapSet_of_get_none h, by rw [h2], by rw [h4],
    by rw [h5], by rw [h6]⟩

theorem keys_append_single (m : List (Conn × ClientState)) (ws : Conn)
    (st : ClientState) :
    (m ++ [(ws, st)]).map Prod.fst = m.map Prod.fst ++ [ws] := by
  simp

theorem not_mem_keys_of_get_none {m : List (Conn × ClientState)} {ws : Conn}
    (h : mapGet m ws = none) : ws ∉ m.map Prod.fst := by
  rw [mapGet_eq_none_iff] at h
  intro hmem
  rcases List.mem_map.mp hmem with ⟨p, hp, hfst⟩
  exact h p hp hfst

/-- `addClient` preserves the bucket-registry invariant: in a real run the
random draw satisfies `0 ≤ r < 1` and the constructor made at least one
bucket. -/
theorem addClient_inv {M : Manager} {s : MState} {ws : Conn} {now r jr : ℚ}
    (h : Inv s) (hr0 : 0 ≤ r) (hr1 : r < 1) (hlen : 0 < s.buckets.length) :
    Inv (addClient M s ws now r jr) := by
  rcases hget : mapGet s.clients ws with _ | st0
  · obtain ⟨hc, hb, _⟩ := @addClient_untracked_fields M s ws now r jr hget
    obtain ⟨hnd, hfwd, hbwd, hbnd⟩ := h
    set b := randomBucket s.buckets.length r with hbdef
    have hblt : b < s.buckets.length := randomBucket_lt hr0 hr1 hlen
    have hres : resolveIdx s.buckets b = b := resolveIdx_lt hblt
    have hnotmem : ∀ i, i < s.buckets.length → ws ∉ s.buckets.getD i [] :=
      fun i hi => not_mem_bucket_of_untracked ⟨hnd, hfwd, hbwd, hbnd⟩ hget hi
    refine ⟨?_, ?_, ?_, ?_⟩
    · rw [hc, keys_append_single]
      rw [List.nodup_append]
      exact ⟨hnd, List.nodup_singleton ws,
        by simpa using fun hmem => not_mem_keys_of_get_none hget hmem⟩
    · intro i hi w hw
      rw [hb, length_setBucket] at hi
      rw [hb, getD_setBucket _ _ _ _ hi, hres] at hw
      rw [hc, mapGet_append_single]
      by_cases hwws : w = ws
      · subst hwws
        rw [hget]
        split at hw
        · next he => simp [he]
        · exact absurd hw (hnotmem i hi)
      · have hold : w ∈ s.buckets.getD i [] := by
          split at hw
          · next he =>
            subst he
            rw [getBucket_eq hblt] at hw
            rcases mem_setAdd.mp hw with h1 | h1
            · exact h1
            · exact absurd h1 hwws
          · exact hw
        have := hfwd i hi w hold
        rcases Option.map_eq_some'.mp this with ⟨v, hv, _⟩
        rw [hv]
        rw [hv] at this
        exact this
    · intro p hp
      rw [hb, length_setBucket]
      rw [hc] at hp
      rcases List.mem_append.mp hp with hp1 | hp1
      · have hold := hbwd p hp1
        refine ⟨hold.1, ?_⟩
        rw [getD_setBucket _ _ _ _ hold.1, hres]
        split
        · next he =>
          rw [getBucket_eq hblt, he]
          exact mem_setAdd.mpr (Or.inl (he ▸ hold.2))
        · exact hold.2
      · rcases List.mem_singleton.mp hp1 with rfl
        refine ⟨hblt, ?_⟩
        rw [getD_setBucket _ _ _ _ hblt, hres, if_pos rfl]
        exact mem_setAdd.mpr (Or.inr rfl)
    · intro bk hbk
      rw [hb] at hbk
      rcases mem_of_mem_setBucket hbk with rfl | hbm
      · rw [getBucket_eq hblt]
        exact nodup_setAdd (hbnd _ (getD_mem hblt))
      · exact hbnd _ hbm
  · rw [addClient_of_tracked (by simp [hget])]
    exact h

/-! ## tick lemmas -/

/-- Deleting an untracked connection from any bucket (the stale-membership
repair in branch one of the sweep) preserves the invariant. -/
theorem inv_del_untracked {s : MState} {ws : Conn} {i : ℕ} (h : Inv s)
    (hget : mapGet s.clients ws = none) :
    Inv { s with buckets := (setBucket s.buckets i
      (setDel (getBucket s.buckets i) ws)) } := by
  obtain ⟨hnd, hfwd, hbwd, hbnd⟩ := h
  rcases Nat.eq_zero_or_pos s.buckets.length with hlen | hlen
  · have hnil := List.length_eq_zero.mp hlen
    refine inv_congr (s := s) rfl ?_ ⟨hnd, hfwd, hbwd, hbnd⟩
    simp [setBucket, hnil]
  · have hres : resolveIdx s.buckets i < s.buckets.length := by
      unfold resolveIdx
      split
      · assumption
      · exact hlen
    refine ⟨hnd, ?_, ?_, ?_⟩
    · intro j hj w hw
      simp only [length_setBucket] at hj
      simp only at hw
      rw [getD_setBucket _ _ _ _ hj] at hw
      simp only
      split at hw
      · next he =>
        have hmem : w ∈ s.buckets.getD (resolveIdx s.buckets i) [] := by
          simpa only [getBucket] using (mem_setDel.mp hw).1
        rw [← he]
        exact hfwd _ hres w hmem
      · exact hfwd j hj w hw
    · intro p hp
      simp only at hp ⊢
      have hold := hbwd p hp
      rw [length_setBucket, getD_setBucket _ _ _ _ hold.1]
      refine ⟨hold.1, ?_⟩
      split
      · next he =>
        have hne : p.1 ≠ ws := by
          intro hpe
          rw [← hpe] at hget
          rw [mapGet_of_mem hnd hp] at hget
          cases hget
        refine mem_setDel.mpr ⟨?_, hne⟩
        simp only [getBucket, he]
        exact hold.2
      · exact hold.2
    · intro bk hbk
      simp only at hbk
      rcases mem_of_mem_setBucket hbk with rfl | hbm
      · refine nodup_setDel ?_
        simp only [getBucket]
        exact hbnd _ (getD_mem hres)
      · exact hbnd _ hbm

/-- One step of the sweep loop preserves the invariant. -/
theorem tickStep_inv {M : Manager} {env : Env} {now : ℚ}
    {sa : MState × TickEffects} {ws : Conn} (h : Inv sa.1) :
    Inv (tickStep M env now sa ws).1 := by
  unfold tickStep
  rcases hget : mapGet sa.1.clients ws with _ | st
  · simp only [hget]
    exact inv_del_untracked (i := sa.1.bucketIndex) h hget
  · simp only [hget]
    split
    · exact removeClient_inv h
    · split
      · exact removeClient_inv h
      · split
        · exact removeClient_inv h
        · exact h

theorem foldl_tickStep_inv {M : Manager} {env : Env} {now : ℚ}
    (l : List Conn) (sa : MState × TickEffects) (h : Inv sa.1) :
    Inv ((l.foldl (tickStep M env now) sa)).1 := by
  induction l generalizing sa with
  | nil => exact h
  | cons w l ih => exact ih _ (tickStep_inv h)

/-- `tick` preserves the bucket-registry invariant. -/
theorem tick_inv {M : Manager} {env : Env} {now : ℚ} {s : MState}
    (h : Inv s) : Inv (tick M env now s).1 := by
  unfold tick
  dsimp only
  exact inv_congr rfl rfl (foldl_tickStep_inv _ _ h)

/-! ## Listener-event lemmas -/

theorem pongUpdate_cons (q : Conn × ClientState) (m : List (Conn × ClientState))
    (ws : Conn) (now : ℚ) :
    pongUpdate (q :: m) ws now =
      (if q.1 = ws then (q.1, { q.2 with lastPongAt := now }) else q)
        :: pongUpdate m ws now := by
  by_cases h : q.1 = ws
  · have hb : (q.1 == ws) = true := by simpa using h
    simp [pongUpdate, hb, h]
  · have hb : (q.1 == ws) = false := by simpa using h
    simp [pongUpdate, hb, h]

theorem mapGet_pongUpdate (m : List (Conn × ClientState)) (ws : Conn)
    (now : ℚ) (k : Conn) :
    mapGet (pongUpdate m ws now) k =
      if k = ws then (mapGet m k).map (fun st => { st with lastPongAt := now })
      else mapGet m k := by
  induction m with
  | nil => by_cases hk : k = ws <;> simp [pongUpdate, mapGet_nil, hk]
  | cons q m ih =>
    rw [pongUpdate_cons, mapGet_cons, mapGet_cons]
    by_cases hq : q.1 = ws
    · rw [if_pos hq]
      by_cases hqk : q.1 = k
      · have hk : k = ws := by rw [← hqk, hq]
        simp [hqk, hk, hq]
      · rw [ih]
        by_cases hk : k = ws
        · exact absurd (hq.trans hk.symm) hqk
        · simp [hqk, hk]
    · rw [if_neg hq]
      by_cases hqk : q.1 = k
      · have hk : ¬ k = ws := fun he => hq (by rw [hqk, he])
        simp [hqk, hk]
      · rw [ih]
        by_cases hk : k = ws
        · simp [hqk, hk, hq]
        · simp [hqk, hk]

theorem keys_pongUpdate (m : List (Conn × ClientState)) (ws : Conn) (now : ℚ) :
    (pongUpdate m ws now).map Prod.fst = m.map Prod.fst := by
  unfold pongUpdate
  rw [List.map_map]
  refine List.map_congr_left (fun p _ => ?_)
  by_cases hq : p.1 = ws
  · have hb : (p.1 == ws) = true := by simpa using hq
    simp [hb, hq]
  · have hb : (p.1 == ws) = false := by simpa using hq
    simp [hb, hq]

/-- The `pong` reaction preserves the bucket-registry invariant: it only
refreshes `lastPongAt`, leaving keys and bucket assignments unchanged. -/
theorem firePong_inv {s : MState} {ws : Conn} {now : ℚ} (h : Inv s) :
    Inv (firePong s ws now) := by
  unfold firePong
  split
  · obtain ⟨hnd, hfwd, hbwd, hbnd⟩ := h
    refine ⟨?_, ?_, ?_, hbnd⟩
    · rw [keys_pongUpdate] at *
      simpa using hnd
    · intro i hi w hw
      simp only at hi hw ⊢
      rw [mapGet_pongUpdate]
      have := hfwd i hi w hw
      split
      · rw [Option.map_map]
        exact this
      · exact this
    · intro p hp
      simp only at hp ⊢
      unfold pongUpdate at hp
      rcases List.mem_map.mp hp with ⟨q, hq, hqe⟩
      have hold := hbwd q hq
      by_cases hb : q.1 = ws
      · have hbb : (q.1 == ws) = true := by simpa using hb
        rw [hbb] at hqe
        simp only [cond_true] at hqe
        rw [← hqe]
        exact hold
      · have hbb : (q.1 == ws) = false := by simpa using hb
        rw [hbb] at hqe
        simp only [cond_false] at hqe
        rw [← hqe]
        exact hold
  · exact h

/-- The `close` reaction preserves the bucket-registry invariant. -/
theorem fireClose_inv {s : MState} {ws : Conn} (h : Inv s) :
    Inv (fireClose s ws).1 := by
  unfold fireClose
  split
  · exact removeClient_inv (inv_congr rfl rfl h)
  · exact h

/-- The `error` reaction preserves the bucket-registry invariant. -/
theorem fireError_inv {s : MState} {ws : Conn} (h : Inv s) :
    Inv (fireError s ws).1 := by
  unfold fireError
  split
  · exact removeClient_inv (inv_congr rfl rfl h)
  · exact h

/-! ## shutdown lemmas -/

theorem foldl_remove_inv (l : List Conn) (acc : MState × List Conn)
    (h : Inv acc.1) :
    Inv ((l.foldl (fun acc ws =>
      let r := removeClient acc.1 ws true
      (r.1, acc.2 ++ r.2)) acc)).1 := by
  induction l generalizing acc with
  | nil => exact h
  | cons w l ih => exact ih _ (removeClient_inv h)

/-- `shutdown` preserves the bucket-registry invariant. -/
theorem shutdown_inv {s : MState} (h : Inv s) : Inv (shutdown s).1 := by
  unfold shutdown
  exact foldl_remove_inv _ _ (inv_congr rfl rfl h)

theorem initState_timerInv (M : Manager) : TimerInv (initState M) :=
  fun _ => ⟨rfl, rfl⟩

theorem removeClient_timerInv {s : MState} {ws : Conn} {t : Bool}
    (h : TimerInv s) : TimerInv (removeClient s ws t).1 := by
  rcases hget : mapGet s.clients ws with _ | st
  · rw [removeClient_untracked hget]
    exact h
  · unfold removeClient
    rw [hget]
    dsimp only
    split
    · exact fun _ => ⟨rfl, rfl⟩
    · next hne =>
      intro hnil
      have hnil2 : mapDelete s.clients ws = [] := hnil
      exact absurd (by simp [hnil2]) hne

theorem addClient_timerInv {M : Manager} {s : MState} {ws : Conn}
    {now r jr : ℚ} (h : TimerInv s) : TimerInv (addClient M s ws now r jr) := by
  rcases hget : mapGet s.clients ws with _ | st
  · intro hnil
    rw [(@addClient_untracked_fields M s ws now r jr hget).1] at hnil
    simp at hnil
  · rw [addClient_of_tracked (by simp [hget])]
    exact h

theorem tickStep_timerInv {M : Manager} {env : Env} {now : ℚ}
    {sa : MState × TickEffects} {ws : Conn} (h : TimerInv sa.1) :
    TimerInv (tickStep M env now sa ws).1 := by
  unfold tickStep
  rcases hget : mapGet sa.1.clients ws with _ | st
  · simp only [hget]
    intro hnil
    exact h hnil
  · simp only [hget]
    split
    · exact removeClient_timerInv h
    · split
      · exact removeClient_timerInv h
      · split
        · exact removeClient_timerInv h
        · exact h

theorem foldl_tickStep_timerInv {M : Manager} {env : Env} {now : ℚ}
    (l : List Conn) (sa : MState × TickEffects) (h : TimerInv sa.1) :
    TimerInv ((l.foldl (tickStep M env now) sa)).1 := by
  induction l generalizing sa with
  | nil => exact h
  | cons w l ih => exact ih _ (tickStep_timerInv h)

theorem tick_timerInv {M : Manager} {env : Env} {now : ℚ} {s : MState}
    (h : TimerInv s) : TimerInv (tick M env now s).1 := by
  unfold tick
  dsimp only
  intro hnil
  exact foldl_tickStep_timerInv _ _ h hnil

theorem onDelayFire_clients (s : MState) : (onDelayFire s).clients = s.clients := by
  unfold onDelayFire startTickTimer
  dsimp only
  repeat' split
  all_goals rfl

theorem onDelayFire_timerInv {s : MState} (h : TimerInv s) :
    TimerInv (onDelayFire s) := by
  intro hnil
  have hcl : s.clients = [] := by
    rw [← onDelayFire_clients s]
    exact hnil
  unfold onDelayFire startTickTimer
  dsimp only
  rw [hcl]
  simp only [List.length_nil, gt_iff_lt, lt_irrefl, if_false]
  exact ⟨trivial, (h hcl).2⟩

theorem firePong_timerInv {s : MState} {ws : Conn} {now : ℚ}
    (h : TimerInv s) : TimerInv (firePong s ws now) := by
  unfold firePong
  split
  · intro hnil
    simp only at hnil
    have hz : s.clients = [] := by
      have h2 := congrArg List.length hnil
      simp [pongUpdate] at h2
      exact h2
    exact h hz
  · exact h

theorem fireClose_timerInv {s : MState} {ws : Conn} (h : TimerInv s) :
    TimerInv (fireClose s ws).1 := by
  unfold fireClose
  split
  · exact removeClient_timerInv (fun hnil => h hnil)
  · exact h

theorem fireError_timerInv {s : MState} {ws : Conn} (h : TimerInv s) :
    TimerInv (fireError s ws).1 := by
  unfold fireError
  split
  · exact removeClient_timerInv (fun hnil => h hnil)
  · exact h

theorem removeClient_timersOff {s : MState} {ws : Conn} {t : Bool}
    (hd : s.delayTimer = false) (ht : s.tickTimer = false) :
    (removeClient s ws t).1.delayTimer = false
    ∧ (removeClient s ws t).1.tickTimer = false := by
  rcases hget : mapGet s.clients ws with _ | st
  · rw [removeClient_untracked hget]
    exact ⟨hd, ht⟩
  · unfold removeClient
    rw [hget]
    dsimp only
    split
    · exact ⟨rfl, rfl⟩
    · exact ⟨hd, ht⟩

theorem foldl_remove_timersOff (l : List Conn) (acc : MState × List Conn)
    (hd : acc.1.delayTimer = false) (ht : acc.1.tickTimer = false) :
    ((l.foldl (fun acc ws =>
      let r := removeClient acc.1 ws true
      (r.1, acc.2 ++ r.2)) acc)).1.delayTimer = false
    ∧ ((l.foldl (fun acc ws =>
      let r := removeClient acc.1 ws true
      (r.1, acc.2 ++ r.2)) acc)).1.tickTimer = false := by
  induction l generalizing acc with
  | nil => exact ⟨hd, ht⟩
  | cons w l ih =>
    exact ih _ (removeClient_timersOff hd ht).1 (removeClient_timersOff hd ht).2

theorem shutdown_timerInv {s : MState} : TimerInv (shutdown s).1 := by
  intro _
  exact foldl_remove_timersOff _ _ rfl rfl

theorem keys_mapDelete (m : List (Conn × ClientState)) (ws : Conn) :
    (mapDelete m ws).map Prod.fst = (m.map Prod.fst).filter (fun k => k != ws) := by
  induction m with
  | nil => rfl
  | cons q m ih =>
    rw [mapDelete_cons]
    by_cases h : q.1 = ws
    · have hb : (q.1 != ws) = false := by simpa using h
      rw [if_pos h, ih]
      simp [List.filter, hb]
    · have hb : (q.1 != ws) = true := by simpa using h
      rw [if_neg h]
      simp only [List.map_cons, List.filter, hb]
      rw [ih]

theorem erase_keys_eq {m : List (Conn × ClientState)} {ws : Conn}
    (hnd : (m.map Prod.fst).Nodup) :
    (m.map Prod.fst).erase ws = (mapDelete m ws).map Prod.fst := by
  rw [keys_mapDelete, List.Nodup.erase_eq_filter hnd]

theorem removeClient_listenerInv {s : MState} {ws : Conn} {t : Bool}
    (hnd : (s.clients.map Prod.fst).Nodup) (h : ListenerInv s) :
    ListenerInv (removeClient s ws t).1 := by
  rcases hget : mapGet s.clients ws with _ | st
  · rw [removeClient_untracked hget]
    exact h
  · obtain ⟨_, _, hp, hc, he⟩ := @removeClient_tracked_fields s ws t st hget
    obtain ⟨h1, h2, h3⟩ := h
    have hcl := removeClient_clients s ws t
    refine ⟨?_, ?_, ?_⟩
    · rw [hp, hcl, h1, erase_keys_eq hnd]
    · rw [hc, hcl, h2, erase_keys_eq hnd]
    · rw [he, hcl, h3, erase_keys_eq hnd]

/-! ## shutdown characterization (claim C9) -/

theorem foldl_remove_snd (l : List Conn) (acc : MState × List Conn) :
    ((l.foldl (fun acc ws =>
      let r := removeClient acc.1 ws true
      (r.1, acc.2 ++ r.2)) acc)).2 = acc.2 ++ l := by
  induction l generalizing acc with
  | nil => simp
  | cons w l ih =>
    rw [List.foldl_cons, ih]
    dsimp only
    rw [removeClient_term]
    simp

theorem foldl_remove_clients (l : List Conn) (acc : MState × List Conn) :
    ((l.foldl (fun acc ws =>
      let r := removeClient acc.1 ws true
      (r.1, acc.2 ++ r.2)) acc)).1.clients =
      l.foldl mapDelete acc.1.clients := by
  induction l generalizing acc with
  | nil => rfl
  | cons w l ih =>
    rw [List.foldl_cons, List.foldl_cons, ih]
    dsimp only
    rw [removeClient_clients]

theorem foldl_mapDelete_keys (m : List (Conn × ClientState))
    (hnd : (m.map Prod.fst).Nodup) :
    (m.map Prod.fst).foldl mapDelete m = [] := by
  induction m with
  | nil => rfl
  | cons q m ih =>
    simp only [List.map_cons, List.nodup_cons] at hnd
    rw [List.map_cons, List.foldl_cons]
    have h1 : mapDelete (q :: m) q.1 = mapDelete m q.1 := by
      rw [mapDelete_cons, if_pos rfl]
    have h2 : mapDelete m q.1 = m := by
      refine mapDelete_of_get_none (mapGet_eq_none_iff.mpr (fun p hp he => ?_))
      exact hnd.1 (he ▸ List.mem_map_of_mem Prod.fst hp)
    rw [h1, h2]
    exact ih hnd.2

theorem foldl_remove_listenerInv (l : List Conn) (acc : MState × List Conn)
    (hnd : (acc.1.clients.map Prod.fst).Nodup) (h : ListenerInv acc.1) :
    ListenerInv ((l.foldl (fun acc ws =>
      let r := removeClient acc.1 ws true
      (r.1, acc.2 ++ r.2)) acc)).1 := by
  induction l generalizing acc with
  | nil => exact h
  | cons w l ih =>
    rw [List.foldl_cons]
    refine ih _ ?_ (removeClient_listenerInv hnd h)
    rw [removeClient_clients]
    exact List.Nodup.sublist (keys_delete_sublist _ _) hnd

theorem buckets_empty_of_inv {s : MState} (h : Inv s) (hc : s.clients = []) :
    ∀ b ∈ s.buckets, b = [] := by
  intro b hb
  rcases List.mem_iff_getElem.mp hb with ⟨i, hi, hbi⟩
  refine List.eq_nil_iff_forall_not_mem.mpr (fun w hw => ?_)
  have hmem : w ∈ s.buckets.getD i [] := by
    rw [List.getD_eq_getElem _ _ hi, hbi]
    exact hw
  have := h.2.1 i hi w hmem
  rw [hc] at this
  rw [mapGet_nil] at this
  cases this

theorem removeClient_buckets_length (s : MState) (ws : Conn) (t : Bool) :
    (removeClient s ws t).1.buckets.length = s.buckets.length := by
  rcases hget : mapGet s.clients ws with _ | st
  · rw [removeClient_untracked hget]
  · rw [(@removeClient_tracked_fields s ws t st hget).2.1, length_setBucket]

theorem removeClient_bucketIndex (s : MState) (ws : Conn) (t : Bool) :
    (removeClient s ws t).1.bucketIndex = s.bucketIndex := by
  unfold removeClient
  rcases mapGet s.clients ws with _ | st
  · rfl
  · dsimp only
    split <;> rfl

theorem removeClient_idxInv {s : MState} {ws : Conn} {t : Bool}
    (h : IdxInv s) : IdxInv (removeClient s ws t).1 := by
  obtain ⟨h0, h1, h2⟩ := h
  refine ⟨?_, ?_, ?_⟩
  · rw [removeClient_buckets_length]
    exact h0
  · rw [removeClient_buckets_length, removeClient_bucketIndex]
    exact h1
  · intro p hp
    rw [removeClient_buckets_length]
    rw [removeClient_clients] at hp
    unfold mapDelete at hp
    exact h2 p (List.mem_filter.mp hp).1

theorem addClient_bucketIndex (M : Manager) (s : MState) (ws : Conn)
    (now r jr : ℚ) : (addClient M s ws now r jr).bucketIndex = s.bucketIndex := by
  unfold addClient
  split
  · rfl
  · exact (startTimersIfNeeded_fields M jr _).2.2.1

theorem addClient_idxInv {M : Manager} {s : MState} {ws : Conn} {now r jr : ℚ}
    (h : IdxInv s) (hr0 : 0 ≤ r) (hr1 : r < 1) :
    IdxInv (addClient M s ws now r jr) := by
  obtain ⟨h0, h1, h2⟩ := h
  rcases hget : mapGet s.clients ws with _ | st
  · obtain ⟨hc, hb, _⟩ := @addClient_untracked_fields M s ws now r jr hget
    refine ⟨?_, ?_, ?_⟩
    · rw [hb, length_setBucket]
      exact h0
    · rw [hb, length_setBucket, addClient_bucketIndex]
      exact h1
    · intro p hp
      rw [hb, length_setBucket]
      rw [hc] at hp
      rcases List.mem_append.mp hp with hp1 | hp1
      · exact h2 p hp1
      · rcases List.mem_singleton.mp hp1 with rfl
        exact randomBucket_lt hr0 hr1 h0
  · rw [addClient_of_tracked (by simp [hget])]
    exact ⟨h0, h1, h2⟩

theorem tickStep_idxInv {M : Manager} {env : Env} {now : ℚ}
    {sa : MState × TickEffects} {ws : Conn} (h : IdxInv sa.1) :
    IdxInv (tickStep M env now sa ws).1 := by
  obtain ⟨h0, h1, h2⟩ := h
  unfold tickStep
  rcases hget : mapGet sa.1.clients ws with _ | st
  · simp only [hget]
    refine ⟨?_, ?_, ?_⟩
    · simpa [length_setBucket] using h0
    · simpa [length_setBucket] using h1
    · intro p hp
      simpa [length_setBucket] using h2 p hp
  · simp only [hget]
    split
    · exact removeClient_idxInv ⟨h0, h1, h2⟩
    · split
      · exact removeClient_idxInv ⟨h0, h1, h2⟩
      · split
        · exact removeClient_idxInv ⟨h0, h1, h2⟩
        · exact ⟨h0, h1, h2⟩

theorem foldl_tickStep_idxInv {M : Manager} {env : Env} {now : ℚ}
    (l : List Conn) (sa : MState × TickEffects) (h : IdxInv sa.1) :
    IdxInv ((l.foldl (tickStep M env now) sa)).1 := by
  induction l generalizing sa with
  | nil => exact h
  | cons w l ih => exact ih _ (tickStep_idxInv h)

theorem tick_idxInv {M : Manager} {env : Env} {now : ℚ} {s : MState}
    (h : IdxInv s) : IdxInv (tick M env now s).1 := by
  unfold tick
  dsimp only
  obtain ⟨h0, h1, h2⟩ := foldl_tickStep_idxInv
    (getBucket s.buckets s.bucketIndex) (s, { terminated := [], pinged := [] }) h
  refine ⟨h0, ?_, h2⟩
  dsimp only
  split
  · exact h0
  · next hlt => exact Nat.lt_of_not_le hlt

theorem firePong_idxInv {s : MState} {ws : Conn} {now : ℚ} (h : IdxInv s) :
    IdxInv (firePong s ws now) := by
  obtain ⟨h0, h1, h2⟩ := h
  unfold firePong
  split
  · refine ⟨h0, h1, ?_⟩
    intro p hp
    simp only at hp ⊢
    unfold pongUpdate at hp
    rcases List.mem_map.mp hp with ⟨q, hq, hqe⟩
    have hold := h2 q hq
    by_cases hb : q.1 = ws
    · have hbb : (q.1 == ws) = true := by simpa using hb
      rw [hbb] at hqe
      simp only [cond_true] at hqe
      rw [← hqe]
      exact hold
    · have hbb : (q.1 == ws) = false := by simpa using hb
      rw [hbb] at hqe
      simp only [cond_false] at hqe
      rw [← hqe]
      exact hold
  · exact ⟨h0, h1, h2⟩

theorem fireClose_idxInv {s : MState} {ws : Conn} (h : IdxInv s) :
    IdxInv (fireClose s ws).1 := by
  unfold fireClose
  split
  · exact removeClient_idxInv h
  · exact h

theorem fireError_idxInv {s : MState} {ws : Conn} (h : IdxInv s) :
    IdxInv (fireError s ws).1 := by
  unfold fireError
  split
  · exact removeClient_idxInv h
  · exact h

theorem onDelayFire_idxInv {s : MState} (h : IdxInv s) :
    IdxInv (onDelayFire s) := by
  unfold onDelayFire startTickTimer
  dsimp only
  repeat' split
  all_goals exact h

theorem shutdown_idxInv {s : MState} (h : IdxInv s) : IdxInv (shutdown s).1 := by
  unfold shutdown
  dsimp only
  have : ∀ (l : List Conn) (acc : MState × List Conn), IdxInv acc.1 →
      IdxInv ((l.foldl (fun acc ws =>
        let r := removeClient acc.1 ws true
        (r.1, acc.2 ++ r.2)) acc)).1 := by
    intro l
    induction l with
    | nil => exact fun acc ha => ha
    | cons w l ih => exact fun acc ha => ih _ (removeClient_idxInv ha)
  exact this _ _ h

theorem initState_idxInv {M : Manager} (h : 0 < M.bucketCount) :
    IdxInv (initState M) := by
  refine ⟨?_, ?_, ?_⟩
  · simpa [initState] using h
  · simpa [initState] using h
  · intro p hp
    cases hp

/-! ## Constructor characterization (claims C3, C4, C10) -/

theorem mkManager_ok_fields {opts : Options} {M : Manager}
    (h : mkManager opts = .ok M) :
    ∃ interval timeout desiredTick maxB startJitter,
      (opts.intervalMs.getD (.num 30000)).toQ? = some interval
      ∧ ¬ interval ≤ 0
      ∧ (opts.timeoutMs.getD
          (opts.intervalMs.getD (.num 30000)).double).toQ? = some timeout
      ∧ ¬ timeout < interval
      ∧ (opts.tickMs.getD
          ((opts.intervalMs.getD (.num 30000)).jsMinK 1000)).toQ? = some desiredTick
      ∧ ¬ desiredTick ≤ 0
      ∧ (opts.maxBuckets.getD (.num 60)).asInt? = some maxB
      ∧ ¬ maxB < 1
      ∧ (opts.startJitterMs.getD
          (opts.intervalMs.getD (.num 30000))).toQ? = some startJitter
      ∧ ¬ startJitter < 0
      ∧ M.intervalMs = interval
      ∧ M.timeoutMs = timeout
      ∧ M.startJitterMs = startJitter
      ∧ M.bucketCount =
          (min maxB (max 1 (jsRound (interval / max 50 desiredTick)))).toNat
      ∧ M.tickMs = max 10
          ((jsRound (interval /
            ((min maxB (max 1 (jsRound (interval / max 50 desiredTick))) : ℤ) : ℚ)) : ℚ)) := by
  unfold mkManager at h
  dsimp only at h
  split at h
  · simp at h
  · next interval hI =>
    split at h
    · simp at h
    · next hI0 =>
      split at h
      · simp at h
      · next timeout hT =>
        split at h
        · simp at h
        · next hT0 =>
          split at h
          · simp at h
          · next desiredTick hD =>
            split at h
            · simp at h
            · next hD0 =>
              split at h
              · simp at h
              · next maxB hB =>
                split at h
                · simp at h
                · next hB0 =>
                  split at h
                  · simp at h
                  · next startJitter hJ =>
                    split at h
                    · simp at h
                    · next hJ0 =>
                      injection h with h2
                      subst h2
                      exact ⟨interval, timeout, desiredTick, maxB, startJitter,
                        hI, hI0, hT, hT0, hD, hD0, hB, hB0, hJ, hJ0,
                        rfl, rfl, rfl, rfl, rfl⟩

/-- The derived bucket count of a successfully constructed manager is at
least one. -/
theorem mkManager_bucketCount_pos {opts : Options} {M : Manager}
    (h : mkManager opts = .ok M) : 0 < M.bucketCount := by
  obtain ⟨interval, timeout, desiredTick, maxB, startJitter,
    _, _, _, _, _, _, _, hB0, _, _, _, _, _, hbc, _⟩ := mkManager_ok_fields h
  rw [hbc]
  have h1 : (1 : ℤ) ≤ maxB := le_of_not_lt hB0
  have h2 : (1 : ℤ) ≤ max 1 (jsRound (interval / max 50 desiredTick)) :=
    le_max_left _ _
  have : (1 : ℤ) ≤ min maxB (max 1 (jsRound (interval / max 50 desiredTick))) :=
    le_min h1 h2
  omega

/-- C3: the constructor fails with a `RangeError` (modelled as
`Except.error`; the constructor performs no effect before a throw) if and
only if the defaulted configuration violates one of the five documented
validity conditions — equivalently, it succeeds exactly on the
configurations `specValid` (the claim-side predicate) accepts. -/
theorem claim3_constructor_validation (opts : Options) :
    (mkManager opts).isOk = specValid opts := by
  unfold mkManager specValid
  dsimp only
  rcases hI : opts.intervalMs.getD (.num 30000) with q | _ | _ | _
  · simp only [JSNum.toQ?]
    by_cases h0 : q ≤ 0
    · have hnq : ¬ (0 : ℚ) < q := not_lt.mpr h0
      simp [JSNum.isFinite, JSNum.jsLt, Except.isOk, Except.toBool, h0, hnq]
    · have hq : (0 : ℚ) < q := lt_of_not_le h0
      rcases hT : opts.timeoutMs.getD (JSNum.num q).double with tq | _ | _ | _
      · simp only [JSNum.toQ?]
        by_cases hT0 : tq < q
        · simp [JSNum.isFinite, JSNum.jsLt, Except.isOk, Except.toBool, h0, hq, hT0]
        · rcases hD : opts.tickMs.getD ((JSNum.num q).jsMinK 1000)
            with dq | _ | _ | _
          · simp only [JSNum.toQ?]
            by_cases hD0 : dq ≤ 0
            · have hndq : ¬ (0 : ℚ) < dq := not_lt.mpr hD0
              simp [JSNum.isFinite, JSNum.jsLt, Except.isOk, Except.toBool, h0, hq, hT0,
                hD0, hndq]
            · have hdq : (0 : ℚ) < dq := lt_of_not_le hD0
              rcases hB : (opts.maxBuckets.getD (.num 60)).asInt? with _ | mB
              · simp [JSNum.isFinite, JSNum.jsLt, Except.isOk, Except.toBool, h0, hq, hT0,
                  hD0, hdq, hB]
              · simp only [hB]
                by_cases hB0 : mB < 1
                · have hnmb : ¬ (1 : ℤ) ≤ mB := not_le.mpr hB0
                  simp [JSNum.isFinite, JSNum.jsLt, Except.isOk, Except.toBool, h0, hq, hT0,
                    hD0, hdq, hB0, hnmb]
                · have hmb : (1 : ℤ) ≤ mB := le_of_not_lt hB0
                  rcases hJ : opts.startJitterMs.getD (JSNum.num q)
                    with jq | _ | _ | _
                  · simp only [JSNum.toQ?]
                    by_cases hJ0 : jq < 0
                    · simp [JSNum.isFinite, JSNum.jsLt, Except.isOk, Except.toBool, h0, hq,
                        hT0, hD0, hdq, hB0, hmb, hJ0]
                    · simp [JSNum.isFinite, JSNum.jsLt, Except.isOk, Except.toBool, h0, hq,
                        hT0, hD0, hdq, hB0, hmb, hJ0]
                  · simp [JSNum.toQ?, JSNum.isFinite, JSNum.jsLt, Except.isOk, Except.toBool,
                      h0, hq, hT0, hD0, hdq, hB0, hmb]
                  · simp [JSNum.toQ?, JSNum.isFinite, JSNum.jsLt, Except.isOk, Except.toBool,
                      h0, hq, hT0, hD0, hdq, hB0, hmb]
                  · simp [JSNum.toQ?, JSNum.isFinite, JSNum.jsLt, Except.isOk, Except.toBool,
                      h0, hq, hT0, hD0, hdq, hB0, hmb]
          · simp [JSNum.toQ?, JSNum.isFinite, JSNum.jsLt, Except.isOk, Except.toBool, h0,
              hq, hT0]
          · simp [JSNum.toQ?, JSNum.isFinite, JSNum.jsLt, Except.isOk, Except.toBool, h0,
              hq, hT0]
          · simp [JSNum.toQ?, JSNum.isFinite, JSNum.jsLt, Except.isOk, Except.toBool, h0,
              hq, hT0]
      · simp [JSNum.toQ?, JSNum.isFinite, JSNum.jsLt, Except.isOk, Except.toBool, h0, hq]
      · simp [JSNum.toQ?, JSNum.isFinite, JSNum.jsLt, Except.isOk, Except.toBool, h0, hq]
      · simp [JSNum.toQ?, JSNum.isFinite, JSNum.jsLt, Except.isOk, Except.toBool, h0, hq]
  · simp [JSNum.toQ?, JSNum.isFinite, Except.isOk, Except.toBool]
  · simp [JSNum.toQ?, JSNum.isFinite, Except.isOk, Except.toBool]
  · simp [JSNum.toQ?, JSNum.isFinite, Except.isOk, Except.toBool]

/-! ## Claim theorems -/

/-- C1: each tick sweeps the bucket at the current cursor (by definition
`tick` folds `tickStep` over that bucket's members and then advances the
cursor — the first conjunct records this) and applies, per member, in
order: (1) no registry state ⇒ the member is dropped from the bucket and
nothing else happens (registry, effects unchanged); (2) ready-state not
open ⇒ removed via `removeClient ws false`, with no terminate invocation
and no probe; (3) `now - lastAckAt > timeoutMs` ⇒ removed via
`removeClient ws true` (one terminate invocation), no probe; (4) otherwise
exactly one probe is sent, and if the probe raises the member is removed
via `removeClient ws true`.  Every branch is a total function of the
state — no per-member failure escapes the tick (`ping` and `terminate`
failures are consumed by the `try`/`catch`es, which the totality of
`tickStep` models). -/
theorem claim1_tick_sweep_cases (M : Manager) (env : Env) (now : ℚ)
    (s : MState) (eff : TickEffects) (ws : Conn) :
    (tick M env now s =
      (let r := (getBucket s.buckets s.bucketIndex).foldl (tickStep M env now)
        (s, { terminated := [], pinged := [] })
       ({ r.1 with bucketIndex :=
          if r.1.buckets.length ≤ r.1.bucketIndex + 1 then 0
          else r.1.bucketIndex + 1 }, r.2)))
    ∧ (mapGet s.clients ws = none →
        tickStep M env now (s, eff) ws =
          ({ s with buckets := (setBucket s.buckets s.bucketIndex
              (setDel (getBucket s.buckets s.bucketIndex) ws)) }, eff))
    ∧ (∀ st, mapGet s.clients ws = some st → env.isOpen ws = false →
        tickStep M env now (s, eff) ws = ((removeClient s ws false).1, eff)
        ∧ (removeClient s ws false).2 = [])
    ∧ (∀ st, mapGet s.clients ws = some st → env.isOpen ws = true →
        now - st.lastPongAt > M.timeoutMs →
        tickStep M env now (s, eff) ws = ((removeClient s ws true).1,
          { eff with terminated := eff.terminated ++ [ws] }))
    ∧ (∀ st, mapGet s.clients ws = some st → env.isOpen ws = true →
        ¬ now - st.lastPongAt > M.timeoutMs →
        (env.pingFails ws = false →
          tickStep M env now (s, eff) ws =
            (s, { eff with pinged := eff.pinged ++ [ws] }))
        ∧ (env.pingFails ws = true →
          tickStep M env now (s, eff) ws = ((removeClient s ws true).1,
            { eff with terminated := eff.terminated ++ [ws],
                       pinged := eff.pinged ++ [ws] }))) := by
  refine ⟨rfl, ?_, ?_, ?_, ?_⟩
  · intro hget
    unfold tickStep
    simp only [hget]
  · intro st hget hopen
    unfold tickStep
    simp only [hget, hopen]
    refine ⟨?_, removeClient_term s ws false⟩
    rw [removeClient_term]
    simp
  · intro st hget hopen htime
    unfold tickStep
    simp only [hget, hopen]
    rw [if_neg (by simp), if_pos htime]
    rw [removeClient_term]
    simp
  · intro st hget hopen htime
    constructor
    · intro hping
      unfold tickStep
      simp only [hget, hopen]
      rw [if_neg (by simp), if_neg htime, hping]
      simp
    · intro hping
      unfold tickStep
      simp only [hget, hopen]
      rw [if_neg (by simp), if_neg htime, hping]
      rw [removeClient_term]
      simp

/-- C2: for a tracked open connection swept at time `now`: when
`now - lastAckAt` equals `timeoutMs` exactly, the timeout branch is not
taken — the connection is probed (exactly one ping is recorded
unconditionally), and when the probe succeeds the state is unchanged (not
removed, no terminate); when `now - lastAckAt` strictly exceeds
`timeoutMs`, the connection is removed from the registry and
force-terminated, with no probe. -/
theorem claim2_timeout_boundary (M : Manager) (env : Env) (now : ℚ)
    (s : MState) (eff : TickEffects) (ws : Conn) (st : ClientState)
    (hget : mapGet s.clients ws = some st) (hopen : env.isOpen ws = true) :
    (now - st.lastPongAt = M.timeoutMs →
      (tickStep M env now (s, eff) ws).2.pinged = eff.pinged ++ [ws])
    ∧ (now - st.lastPongAt = M.timeoutMs → env.pingFails ws = false →
      tickStep M env now (s, eff) ws =
        (s, { eff with pinged := eff.pinged ++ [ws] }))
    ∧ (now - st.lastPongAt > M.timeoutMs →
      mapGet (tickStep M env now (s, eff) ws).1.clients ws = none
      ∧ (tickStep M env now (s, eff) ws).2.terminated = eff.terminated ++ [ws]
      ∧ (tickStep M env now (s, eff) ws).2.pinged = eff.pinged) := by
  refine ⟨?_, ?_, ?_⟩
  · intro heq
    have htime : ¬ now - st.lastPongAt > M.timeoutMs := not_lt.mpr (le_of_eq heq)
    unfold tickStep
    simp only [hget, hopen]
    rw [if_neg (by simp), if_neg htime]
    split <;> rfl
  · intro heq hping
    have htime : ¬ now - st.lastPongAt > M.timeoutMs := not_lt.mpr (le_of_eq heq)
    unfold tickStep
    simp only [hget, hopen]
    rw [if_neg (by simp), if_neg htime, hping]
    simp
  · intro htime
    unfold tickStep
    simp only [hget, hopen]
    rw [if_neg (by simp), if_pos htime]
    refine ⟨?_, ?_, ?_⟩
    · rw [removeClient_clients, mapGet_delete, if_pos rfl]
    · rw [removeClient_term]
      simp
    · rfl

/-- C4: for every valid configuration the constructor derives
`bucketCount = min(maxBuckets, max(1, round(intervalMs / max(50,
desiredTickMs))))` and the effective tick period
`tickMs = max(10, round(intervalMs / bucketCount))`, and the initial state
allocates exactly `bucketCount` buckets. -/
theorem claim4_derived_config {opts : Options} {M : Manager}
    {interval desiredTick : ℚ} {maxB : ℤ}
    (hM : mkManager opts = .ok M)
    (hiv : (opts.intervalMs.getD (.num 30000)).toQ? = some interval)
    (htk : (opts.tickMs.getD
      ((opts.intervalMs.getD (.num 30000)).jsMinK 1000)).toQ? = some desiredTick)
    (hmb : (opts.maxBuckets.getD (.num 60)).asInt? = some maxB) :
    M.bucketCount =
      (min maxB (max 1 (jsRound (interval / max 50 desiredTick)))).toNat
    ∧ M.tickMs = max 10 ((jsRound (interval / (M.bucketCount : ℚ)) : ℚ))
    ∧ (initState M).buckets.length = M.bucketCount := by
  obtain ⟨i2, t2, d2, m2, j2, hI, _, _, _, hD, _, hB, hB0, _, _, _, _, _,
    hbc, htm⟩ := mkManager_ok_fields hM
  rw [hI] at hiv
  rw [hD] at htk
  rw [hB] at hmb
  have hEi : i2 = interval := Option.some_injective _ hiv
  have hEd : d2 = desiredTick := Option.some_injective _ htk
  have hEm : m2 = maxB := Option.some_injective _ hmb
  rw [hEi, hEd, hEm] at hbc htm
  rw [hEm] at hB0
  refine ⟨hbc, ?_, by simp [initState]⟩
  rw [htm, hbc]
  have hpos : (0 : ℤ) ≤ min maxB (max 1 (jsRound (interval / max 50 desiredTick))) := by
    have h1 : (1 : ℤ) ≤ maxB := le_of_not_lt hB0
    have h2 : (1 : ℤ) ≤ max 1 (jsRound (interval / max 50 desiredTick)) :=
      le_max_left _ _
    have := le_min h1 h2
    omega
  have hcast :
      (((min maxB (max 1 (jsRound (interval / max 50 desiredTick)))).toNat : ℚ))
      = ((min maxB (max 1 (jsRound (interval / max 50 desiredTick))) : ℤ) : ℚ) := by
    rw [← Int.cast_natCast]
    congr 1
    exact Int.toNat_of_nonneg hpos
  rw [hcast]

/-- C5: every operation and event reaction preserves the bucket-registry
invariant `Inv`: each tracked connection is a member of exactly one bucket
— the one named by its stored `state.bucket` — and bucket membership and
registry entry are created and destroyed in the same operation (`Inv`
holds after the operation whenever it held before; for `addClient` the
hypotheses are what a real run guarantees: a `Math.random()` draw in
`[0, 1)` and the constructor-made non-empty bucket array). -/
theorem claim5_bucket_invariant :
    (∀ M : Manager, Inv (initState M))
    ∧ (∀ (M : Manager) (s : MState) (ws : Conn) (now r jr : ℚ), Inv s →
        0 ≤ r → r < 1 → 0 < s.buckets.length →
        Inv (addClient M s ws now r jr))
    ∧ (∀ (s : MState) (ws : Conn) (t : Bool), Inv s →
        Inv (removeClient s ws t).1)
    ∧ (∀ s : MState, Inv s → Inv (shutdown s).1)
    ∧ (∀ (M : Manager) (env : Env) (now : ℚ) (s : MState), Inv s →
        Inv (tick M env now s).1)
    ∧ (∀ (s : MState) (ws : Conn) (now : ℚ), Inv s →
        Inv (firePong s ws now))
    ∧ (∀ (s : MState) (ws : Conn), Inv s → Inv (fireClose s ws).1)
    ∧ (∀ (s : MState) (ws : Conn), Inv s → Inv (fireError s ws).1) :=
  ⟨initState_inv,
   fun _ _ _ _ _ _ h hr0 hr1 hlen => addClient_inv h hr0 hr1 hlen,
   fun _ _ _ h => removeClient_inv h,
   fun _ h => shutdown_inv h,
   fun _ _ _ _ h => tick_inv h,
   fun _ _ _ h => firePong_inv h,
   fun _ _ h => fireClose_inv h,
   fun _ _ h => fireError_inv h⟩

/-- C6: whenever the registry is empty neither the startup-delay timer nor
the steady tick timer is active — the property holds initially, is
preserved by every operation and timer callback, removing the last tracked
connection stops all timers, and the startup-delay firing does not start
the tick timer when the registry emptied during the delay window. -/
theorem claim6_timer_invariant :
    (∀ M : Manager, TimerInv (initState M))
    ∧ (∀ (M : Manager) (s : MState) (ws : Conn) (now r jr : ℚ), TimerInv s →
        TimerInv (addClient M s ws now r jr))
    ∧ (∀ (s : MState) (ws : Conn) (t : Bool), TimerInv s →
        TimerInv (removeClient s ws t).1)
    ∧ (∀ s : MState, TimerInv (shutdown s).1)
    ∧ (∀ (M : Manager) (env : Env) (now : ℚ) (s : MState), TimerInv s →
        TimerInv (tick M env now s).1)
    ∧ (∀ (s : MState) (ws : Conn) (now : ℚ), TimerInv s →
        TimerInv (firePong s ws now))
    ∧ (∀ (s : MState) (ws : Conn), TimerInv s → TimerInv (fireClose s ws).1)
    ∧ (∀ (s : MState) (ws : Conn), TimerInv s → TimerInv (fireError s ws).1)
    ∧ (∀ s : MState, TimerInv s → TimerInv (onDelayFire s))
    ∧ (∀ (s : MState) (ws : Conn) (t : Bool), TimerInv s →
        (removeClient s ws t).1.clients = [] →
        (removeClient s ws t).1.delayTimer = false
        ∧ (removeClient s ws t).1.tickTimer = false)
    ∧ (∀ s : MState, s.clients = [] → s.tickTimer = false →
        (onDelayFire s).tickTimer = false
        ∧ (onDelayFire s).delayTimer = false) := by
  refine ⟨initState_timerInv,
    fun _ _ _ _ _ _ h => addClient_timerInv h,
    fun _ _ _ h => removeClient_timerInv h,
    fun _ => shutdown_timerInv,
    fun _ _ _ _ h => tick_timerInv h,
    fun _ _ _ h => firePong_timerInv h,
    fun _ _ h => fireClose_timerInv h,
    fun _ _ h => fireError_timerInv h,
    fun _ h => onDelayFire_timerInv h,
    fun _ _ _ h hc => removeClient_timerInv h hc,
    fun s hnil ht => ?_⟩
  unfold onDelayFire startTickTimer
  dsimp only
  rw [hnil]
  simp only [List.length_nil, gt_iff_lt, lt_irrefl, if_false]
  exact ⟨ht, trivial⟩

/-- C7 is corrected: `removeClient` on an untracked connection leaves the
whole manager state untouched and does not throw, but when
`terminate = true` it still invokes the connection's terminate capability
(before the registry lookup), so the connection itself is not left
unchanged.  This theorem is the amended claim. -/
theorem claim7_amended (s : MState) (ws : Conn) (t : Bool)
    (h : mapGet s.clients ws = none) :
    (removeClient s ws t).1 = s
    ∧ (removeClient s ws t).2 = (if t then [ws] else []) := by
  rw [removeClient_untracked h]
  exact ⟨rfl, rfl⟩

/-- C8: `addClient` on an already-tracked connection is a no-op: the whole
manager state — registry (hence `clientCount`), bucket assignment,
`lastPongAt`, and all listener registrations — is returned unchanged. -/
theorem claim8_addClient_idempotent (M : Manager) (s : MState) (ws : Conn)
    (now r jr : ℚ) (h : (mapGet s.clients ws).isSome = true) :
    addClient M s ws now r jr = s :=
  addClient_of_tracked h

/-- C9: after `shutdown` the registry is empty, both timers are stopped,
every bucket is empty, the terminate capability of every previously
tracked connection was invoked (in registry order; raising terminates are
swallowed by the `try`/`catch`, which the effect-list model records as
plain invocations), and no event reaction remains registered. -/
theorem claim9_shutdown (s : MState) (hinv : Inv s) (hl : ListenerInv s) :
    (shutdown s).1.clients = []
    ∧ (shutdown s).1.delayTimer = false
    ∧ (shutdown s).1.tickTimer = false
    ∧ (∀ b ∈ (shutdown s).1.buckets, b = [])
    ∧ (shutdown s).2 = s.clients.map Prod.fst
    ∧ (shutdown s).1.pongListeners = []
    ∧ (shutdown s).1.closeListeners = []
    ∧ (shutdown s).1.errorListeners = [] := by
  have hc : (shutdown s).1.clients = [] := by
    have h1 : (shutdown s).1.clients =
        (s.clients.map Prod.fst).foldl mapDelete s.clients :=
      foldl_remove_clients (s.clients.map Prod.fst) (stopTimers s, [])
    rw [h1]
    exact foldl_mapDelete_keys s.clients hinv.1
  have hlfin : ListenerInv (shutdown s).1 :=
    foldl_remove_listenerInv (s.clients.map Prod.fst) (stopTimers s, [])
      hinv.1 hl
  obtain ⟨hp, hcl, he⟩ := hlfin
  have htim : (shutdown s).1.delayTimer = false
      ∧ (shutdown s).1.tickTimer = false :=
    foldl_remove_timersOff (s.clients.map Prod.fst) (stopTimers s, []) rfl rfl
  have hsnd : (shutdown s).2 = [] ++ s.clients.map Prod.fst :=
    foldl_remove_snd (s.clients.map Prod.fst) (stopTimers s, [])
  refine ⟨hc, htim.1, htim.2, ?_, ?_, ?_, ?_, ?_⟩
  · exact buckets_empty_of_inv (shutdown_inv hinv) hc
  · rw [hsnd]
    simp
  · rw [hp, hc]
    rfl
  · rw [hcl, hc]
    rfl
  · rw [he, hc]
    rfl

/-- C10: the constructor always makes at least one bucket (so the
`misconfigured: no buckets` throw in `bucketAt` is unreachable), and every
index the code passes to `bucketAt` stays in `[0, bucketCount)` — the
enrollment index `floor(random() * bucketCount)`, the stored index read
back at removal, and the rotating cursor — so the defensive fallback to
bucket 0 (`resolveIdx` returning 0 for an out-of-range index) is never
taken: `IdxInv` holds initially and is preserved by every operation. -/
theorem claim10_bucket_index_safety :
    (∀ (opts : Options) (M : Manager), mkManager opts = .ok M →
      0 < M.bucketCount ∧ IdxInv (initState M) ∧ (initState M).buckets ≠ [])
    ∧ (∀ (M : Manager) (s : MState) (ws : Conn) (now r jr : ℚ), IdxInv s →
        0 ≤ r → r < 1 → IdxInv (addClient M s ws now r jr))
    ∧ (∀ (s : MState) (ws : Conn) (t : Bool), IdxInv s →
        IdxInv (removeClient s ws t).1)
    ∧ (∀ (M : Manager) (env : Env) (now : ℚ) (s : MState), IdxInv s →
        IdxInv (tick M env now s).1)
    ∧ (∀ (s : MState) (ws : Conn) (now : ℚ), IdxInv s →
        IdxInv (firePong s ws now))
    ∧ (∀ (s : MState) (ws : Conn), IdxInv s → IdxInv (fireClose s ws).1)
    ∧ (∀ (s : MState) (ws : Conn), IdxInv s → IdxInv (fireError s ws).1)
    ∧ (∀ s : MState, IdxInv s → IdxInv (onDelayFire s))
    ∧ (∀ s : MState, IdxInv s → IdxInv (shutdown s).1)
    ∧ (∀ (len : ℕ) (r : ℚ), 0 ≤ r → r < 1 → 0 < len →
        randomBucket len r < len)
    ∧ (∀ (bs : List (List Conn)) (i : ℕ), i < bs.length →
        resolveIdx bs i = i) := by
  refine ⟨fun opts M hM => ?_,
    fun _ _ _ _ _ _ h hr0 hr1 => addClient_idxInv h hr0 hr1,
    fun _ _ _ h => removeClient_idxInv h,
    fun _ _ _ _ h => tick_idxInv h,
    fun _ _ _ h => firePong_idxInv h,
    fun _ _ h => fireClose_idxInv h,
    fun _ _ h => fireError_idxInv h,
    fun _ h => onDelayFire_idxInv h,
    fun _ h => shutdown_idxInv h,
    fun _ _ hr0 hr1 hlen => randomBucket_lt hr0 hr1 hlen,
    fun _ _ hi => resolveIdx_lt hi⟩
  have hpos := mkManager_bucketCount_pos hM
  refine ⟨hpos, initState_idxInv hpos, ?_⟩
  have : 0 < (initState M).buckets.length := by simpa [initState] using hpos
  exact List.ne_nil_of_length_pos this

/-! ## Witnesses: the claim theorems applied at the concrete example run -/

/-- C1 witness: sweeping the healthy open connection at `now = 50`
(`50 - 0 ≤ 100`) sends exactly one probe and changes nothing else. -/
theorem claim1_witness :
    tickStep exManager exEnv 50 (exState, { terminated := [], pinged := [] }) 7
      = (exState, { terminated := [], pinged := [7] }) :=
  ((claim1_tick_sweep_cases exManager exEnv 50 exState
      { terminated := [], pinged := [] } 7).2.2.2.2
    { lastPongAt := 0, bucket := 1 }
    (by with_unfolding_all decide) rfl
    (by with_unfolding_all decide)).1 rfl

/-- C2 witness: at the exact boundary `now - lastAckAt = timeoutMs`
(`100 - 0 = 100`) the connection is probed, not terminated, not removed. -/
theorem claim2_witness :
    tickStep exManager exEnv 100 (exState, { terminated := [], pinged := [] }) 7
      = (exState, { terminated := [], pinged := [7] }) :=
  (claim2_timeout_boundary exManager exEnv 100 exState
      { terminated := [], pinged := [] } 7 { lastPongAt := 0, bucket := 1 }
      (by with_unfolding_all decide) rfl).2.1
    (by with_unfolding_all decide) rfl

/-- C4 witness: the example configuration derives `bucketCount`
`min 60 (max 1 (round (100 / max 50 50))) = 2` and
`tickMs = max 10 (round (100 / 2)) = 50`. -/
theorem claim4_witness :
    exManager.bucketCount =
      (min 60 (max 1 (jsRound ((100 : ℚ) / max 50 50)))).toNat
    ∧ exManager.tickMs =
      max 10 ((jsRound ((100 : ℚ) / (exManager.bucketCount : ℚ)) : ℚ))
    ∧ (initState exManager).buckets.length = exManager.bucketCount :=
  @claim4_derived_config exOptions exManager 100 50 60
    (by with_unfolding_all rfl) rfl rfl (by with_unfolding_all decide)

/-- C5 witness: the bucket-registry invariant at the concrete states
reached by init, add, remove and tick. -/
theorem claim5_witness :
    Inv (initState exManager)
    ∧ Inv (addClient exManager exState 9 5 (1 / 2) 0)
    ∧ Inv (removeClient exState 7 true).1
    ∧ Inv (tick exManager exEnv 50 exState).1 :=
  ⟨claim5_bucket_invariant.1 exManager,
   claim5_bucket_invariant.2.1 exManager exState 9 5 (1 / 2) 0
     (by with_unfolding_all decide) (by with_unfolding_all decide)
     (by with_unfolding_all decide) (by with_unfolding_all decide),
   claim5_bucket_invariant.2.2.1 exState 7 true (by with_unfolding_all decide),
   claim5_bucket_invariant.2.2.2.2.1 exManager exEnv 50 exState
     (by with_unfolding_all decide)⟩

/-- C6 witness: removing the last tracked connection of the example state
stops both timers. -/
theorem claim6_witness :
    TimerInv (removeClient exState 7 false).1
    ∧ ((removeClient exState 7 false).1.delayTimer = false
       ∧ (removeClient exState 7 false).1.tickTimer = false) :=
  ⟨claim6_timer_invariant.2.2.1 exState 7 false (by with_unfolding_all decide),
   claim6_timer_invariant.2.2.2.2.2.2.2.2.2.1 exState 7 false
     (by with_unfolding_all decide) (by with_unfolding_all decide)⟩

/-- C7 counterexample: connection `0` is untracked, yet
`removeClient(0, terminate := true)` invokes its terminate capability (the
recorded invocation list is `[0]`, not empty) — refuting the claim that
the connection itself is left unchanged for both flag values. -/
theorem claim7_counterexample :
    mapGet (initState exManager).clients 0 = none
    ∧ (removeClient (initState exManager) 0 true).2 = [0]
    ∧ (removeClient (initState exManager) 0 true).2 ≠ [] := by
  with_unfolding_all decide

/-- C7 witness: the amended claim at connection `0`, untracked, with
`terminate = true`. -/
theorem claim7_witness :
    (removeClient (initState exManager) 0 true).1 = initState exManager
    ∧ (removeClient (initState exManager) 0 true).2 =
        (if true then [0] else []) :=
  claim7_amended (initState exManager) 0 true (by with_unfolding_all decide)

/-- C8 witness: re-adding the already-tracked connection `7` (with fresh
timestamp and draws) returns the state unchanged. -/
theorem claim8_witness : addClient exManager exState 7 99 0 0 = exState :=
  claim8_addClient_idempotent exManager exState 7 99 0 0
    (by with_unfolding_all decide)

/-- C9 witness: shutting down the example manager empties everything and
terminates the one tracked connection. -/
theorem claim9_witness :
    (shutdown exState).1.clients = []
    ∧ (shutdown exState).1.delayTimer = false
    ∧ (shutdown exState).1.tickTimer = false
    ∧ (∀ b ∈ (shutdown exState).1.buckets, b = [])
    ∧ (shutdown exState).2 = exState.clients.map Prod.fst
    ∧ (shutdown exState).1.pongListeners = []
    ∧ (shutdown exState).1.closeListeners = []
    ∧ (shutdown exState).1.errorListeners = [] :=
  claim9_shutdown exState (by with_unfolding_all decide)
    (by with_unfolding_all decide)

/-- C10 witness: the example constructor run yields a positive bucket
count and in-range indices, preserved through add and tick. -/
theorem claim10_witness :
    (0 < exManager.bucketCount ∧ IdxInv (initState exManager)
      ∧ (initState exManager).buckets ≠ [])
    ∧ IdxInv (addClient exManager exState 9 5 (1 / 2) 0)
    ∧ IdxInv (tick exManager exEnv 50 exState).1 :=
  ⟨claim10_bucket_index_safety.1 exOptions exManager
     (by with_unfolding_all rfl),
   claim10_bucket_index_safety.2.1 exManager exState 9 5 (1 / 2) 0
     (by with_unfolding_all decide) (by with_unfolding_all decide)
     (by with_unfolding_all decide),
   claim10_bucket_index_safety.2.2.2.1 exManager exEnv 50 exState
     (by with_unfolding_all decide)⟩

end WsHeartbeat
